import Mathlib

/-!
Shallow embedding of `FastParse.Rust` (`src/src/lib.rs`), module
`fastparse::types`, type `PositionalSlice`, together with theorems about
its operations.

Machine integers are modelled on the reference 64-bit target:
`usize` values are `Nat`s bounded by `usizeMax = 2^64 - 1`, `isize` values
are `Int`s in `[isizeMin, isizeMax] = [-2^63, 2^63 - 1]`.

Rust arithmetic appears in two build modes:
- debug semantics: an overflowing `+`, `-` or unary `-` panics; panics are
  modelled as `Except.error ()`;
- release semantics: the same operations wrap modulo `2^64` (for unary `-`
  on `isize`, modulo `2^64` after two's-complement reinterpretation).
The debug-semantics functions are the primary model (`offset_checked`,
`offset_unchecked`, `subslice_of`, `substring_of`); the wrapping variant
`offset_checked_wrapped` records what the same source lines compute in a
release build.

`&str` indexing is modelled on the UTF-8 byte representation: a string is a
`List Nat` of bytes, and `s[a..b]` panics unless `a <= b` and both `a` and
`b` are character boundaries (`core::str::is_char_boundary`), which also
enforces `b <= s.len()`.
-/

namespace FastParse

/-- Bit width of `usize` / `isize` on the reference target. -/
def usizeBits : Nat := 64

/-- `usize::MAX` (= `2^64 - 1`). -/
def usizeMax : Nat := 2 ^ usizeBits - 1

/-- `isize::MIN` (= `-2^63`). -/
def isizeMin : Int := -(2 ^ 63)

/-- `isize::MAX` (= `2^63 - 1`). -/
def isizeMax : Int := 2 ^ 63 - 1

/-- Rust `usize` addition, debug semantics: overflow panics. -/
def rustAddUsize (a b : Nat) : Except Unit Nat :=
  if a + b ≤ usizeMax then .ok (a + b) else .error ()

/-- Rust `usize` subtraction, debug semantics: underflow panics. -/
def rustSubUsize (a b : Nat) : Except Unit Nat :=
  if b ≤ a then .ok (a - b) else .error ()

/-- Rust unary negation on `isize`, debug semantics: `-d` panics when the
result is not representable (i.e. when `d = isize::MIN`). -/
def rustNegIsize (d : Int) : Except Unit Int :=
  if isizeMin ≤ -d ∧ -d ≤ isizeMax then .ok (-d) else .error ()

/-- `fastparse::types::PositionalSlice`: an offset/length pair
(`src/src/lib.rs` lines 17-22). Both fields are `usize`. -/
structure PositionalSlice where
  offset : Nat
  length : Nat
deriving DecidableEq, Repr

namespace PositionalSlice

/-- `PositionalSlice::empty` (lib.rs lines 27-35). -/
def empty : PositionalSlice :=
  { offset := 0, length := 0 }

/-- `PositionalSlice::new` (lib.rs lines 42-50). -/
def new (off : Nat) (len : Nat) : PositionalSlice :=
  { offset := off, length := len }

/-- `PositionalSlice::is_empty` (lib.rs lines 60-62): `0 == self.length`. -/
def is_empty (s : PositionalSlice) : Bool :=
  0 == s.length

/-- `PositionalSlice::len` (lib.rs lines 65-67). -/
def len (s : PositionalSlice) : Nat :=
  s.length

/-- `PositionalSlice::offset_unchecked` (lib.rs lines 80-95), debug
semantics. The source computes `self.offset - (-d) as usize` when `d < 0`
and `self.offset + d as usize` otherwise; both the unary negation and the
`+`/`-` can panic in a debug build. -/
def offset_unchecked (s : PositionalSlice) (d : Int) :
    Except Unit PositionalSlice :=
  if d < 0 then
    match rustNegIsize d with
    | .error e => .error e
    | .ok nd =>
      match rustSubUsize s.offset nd.toNat with
      | .error e => .error e
      | .ok newOff => .ok { offset := newOff, length := s.length }
  else
    match rustAddUsize s.offset d.toNat with
    | .error e => .error e
    | .ok newOff => .ok { offset := newOff, length := s.length }

/-- `PositionalSlice::offset_checked` (lib.rs lines 106-146), debug
semantics. Mirrors the source line by line: the `d = 0` early return, then
for `d < 0` the magnitude `a = (-d) as usize` (the negation can panic) and
the `a > self.offset` test, and for `d > 0` the guards
`a > usize::MAX - self.offset` and `a + self.length > usize::MAX -
self.offset` (the sum `a + self.length` itself can panic). -/
def offset_checked (s : PositionalSlice) (d : Int) :
    Except Unit (Option PositionalSlice) :=
  if d = 0 then .ok (some s)
  else if d < 0 then
    match rustNegIsize d with
    | .error e => .error e
    | .ok nd =>
      let a := nd.toNat
      if a > s.offset then .ok none
      else .ok (some (new (s.offset - a) s.length))
  else
    let a := d.toNat
    if a > usizeMax - s.offset then .ok none
    else
      match rustAddUsize a s.length with
      | .error e => .error e
      | .ok t =>
        if t > usizeMax - s.offset then .ok none
        else .ok (some (new (s.offset + a) s.length))

/-- `PositionalSlice::offset_checked` (lib.rs lines 106-146), release
semantics: `-d` wraps (so `(-d) as usize` is `(-d) mod 2^64`) and
`a + self.length` wraps modulo `2^64`. No panic is possible. -/
def offset_checked_wrapped (s : PositionalSlice) (d : Int) :
    Option PositionalSlice :=
  if d = 0 then some s
  else if d < 0 then
    let a := ((-d).emod (2 ^ usizeBits)).toNat
    if a > s.offset then none
    else some (new (s.offset - a) s.length)
  else
    let a := d.toNat
    if a > usizeMax - s.offset then none
    else if (a + s.length) % 2 ^ usizeBits > usizeMax - s.offset then none
    else some (new (s.offset + a) s.length)

/-- `PositionalSlice::subslice_of` (lib.rs lines 157-162):
`&slice[self.offset..self.offset + self.length]`. The index sum is a
`usize` addition (debug: can panic); range indexing of a `[T]` slice
panics when `start > end` or `end > slice.len()`. -/
def subslice_of {α : Type} (ps : PositionalSlice) (s : List α) :
    Except Unit (List α) :=
  match rustAddUsize ps.offset ps.length with
  | .error e => .error e
  | .ok t =>
    if ps.offset ≤ t ∧ t ≤ s.length then
      .ok ((s.drop ps.offset).take (t - ps.offset))
    else .error ()

/-- `core::str::is_char_boundary` on the UTF-8 byte list: index `0` is a
boundary; an index past the end is a boundary only at exactly `s.len()`;
an interior index is a boundary iff the byte there is not a UTF-8
continuation byte (`0x80..0xBF`). -/
def isUtf8CharBoundary (s : List Nat) (i : Nat) : Bool :=
  if i = 0 then true
  else
    match s[i]? with
    | none => i == s.length
    | some b => decide (b < 0x80 ∨ 0xC0 ≤ b)

/-- Rust `&str` range indexing `s[a..b]` on the UTF-8 byte list: succeeds
iff `a <= b` and both `a` and `b` are character boundaries, else panics. -/
def rustStrIndex (s : List Nat) (a b : Nat) : Except Unit (List Nat) :=
  if a ≤ b ∧ isUtf8CharBoundary s a = true ∧ isUtf8CharBoundary s b = true then
    .ok ((s.drop a).take (b - a))
  else .error ()

/-- `PositionalSlice::substring_of` (lib.rs lines 173-178):
`&slice[self.offset..self.offset + self.length]` on a `&str`, with the
string modelled as its UTF-8 bytes. -/
def substring_of (ps : PositionalSlice) (s : List Nat) :
    Except Unit (List Nat) :=
  match rustAddUsize ps.offset ps.length with
  | .error e => .error e
  | .ok t => rustStrIndex s ps.offset t

/-- `impl PartialEq for PositionalSlice` (lib.rs lines 183-198). -/
def eq (x y : PositionalSlice) : Bool :=
  if x.offset ≠ y.offset then false
  else if x.length ≠ y.length then false
  else true

/-- `impl PartialOrd for PositionalSlice` (lib.rs lines 200-223):
`partial_cmp`, offset first, then length. -/
def partialCmp (x y : PositionalSlice) : Option Ordering :=
  if x.offset < y.offset then some .lt
  else if y.offset < x.offset then some .gt
  else if x.length < y.length then some .lt
  else if y.length < x.length then some .gt
  else some .eq

end PositionalSlice

open PositionalSlice

/-! Theorems about the claims. -/

/-- Claim C8: construction and queries agree: `empty() == new(0, 0)`,
`empty().is_empty()` holds, and for every `(offset, length)`,
`new(offset, length).len() == length` and `is_empty()` iff `length == 0`,
regardless of offset. -/
theorem construction_and_queries :
    PositionalSlice.empty = new 0 0 ∧
    PositionalSlice.empty.is_empty = true ∧
    ∀ o l : Nat, (new o l).len = l ∧ ((new o l).is_empty = true ↔ l = 0) := by
  refine ⟨rfl, rfl, fun o l => ⟨rfl, ?_⟩⟩
  simp only [PositionalSlice.is_empty, new, beq_iff_eq]
  omega

/-- Claim C9: a delta of zero is an identity for the checked shift:
`offset_checked(0)` returns the original value, present, for every
instance. -/
theorem offset_checked_zero (s : PositionalSlice) :
    s.offset_checked 0 = .ok (some s) :=
  rfl

/-- Claim C1 (refuting evaluation): `offset_checked` can trap in a debug
build. At `{offset: 0, length: usize::MAX}` with `d = 1`, the guard
`a + self.length` overflows and panics; at any slice with
`d = isize::MIN`, the expression `(-d)` overflows `isize` and panics. -/
theorem offset_checked_traps_on_overflow :
    offset_checked (new 0 usizeMax) 1 = .error () ∧
    offset_checked (new 5 0) isizeMin = .error () :=
  ⟨rfl, rfl⟩

/-- Claim C2 (refuting evaluation): at `{offset: 0, length: usize::MAX}`
with `d = 1` the end of the shifted slice, `0 + 1 + usize::MAX`, exceeds
`usize::MAX`, so the claim requires an absent result; a release build
returns present `{offset: 1, length: usize::MAX}` (the wrapped guard
compares `0` instead of `usize::MAX + 1`), and a debug build panics. -/
theorem offset_checked_end_overflow_not_absent :
    usizeMax < 0 + 1 + usizeMax ∧
    offset_checked_wrapped (new 0 usizeMax) 1 = some (new 1 usizeMax) ∧
    offset_checked (new 0 usizeMax) 1 = .error () :=
  ⟨by decide, rfl, rfl⟩

/-- Claim C4 (refuting evaluation): `offset_unchecked(isize::MIN)` panics
in a debug build even when the offset absorbs the magnitude
(`offset = 2^63`, adjusted offset `0` is representable), because `(-d)`
overflows `isize` before the subtraction; ordinary in-range deltas behave
as claimed. -/
theorem offset_unchecked_min_delta_traps :
    offset_unchecked (new (2 ^ 63) 0) isizeMin = .error () ∧
    offset_unchecked (new 7 3) (-2) = .ok (new 5 3) ∧
    offset_unchecked (new 7 3) 2 = .ok (new 9 3) :=
  ⟨rfl, rfl, rfl⟩

/-- Claim C10: a zero-length slice whose offset equals the sequence length
projects, without trapping, to the empty sub-view. -/
theorem subslice_of_zero_length_at_end {α : Type} (s : List α) (o : Nat)
    (hmax : s.length ≤ usizeMax) (ho : o ≤ s.length) :
    (new o 0).subslice_of s = .ok ([] : List α) := by
  have h1 : o ≤ usizeMax := le_trans ho hmax
  simp [subslice_of, rustAddUsize, new, h1, ho]

/-- Witness for `subslice_of_zero_length_at_end` at `o = s.length = 3`. -/
theorem subslice_of_zero_length_at_end_witness :
    (new 3 0).subslice_of ([10, 20, 30] : List Nat) = .ok [] :=
  subslice_of_zero_length_at_end [10, 20, 30] 3 (by decide) (by decide)

/-- Claim C6: within bounds, `subslice_of` returns exactly the contiguous
sub-view `[offset, offset+length)` of the view it is applied to, and the
spec's examples hold, including on already-offset views (the slice is
relative to whatever view it is applied to). -/
theorem subslice_of_spec :
    (∀ {α : Type} (s : List α) (ps : PositionalSlice),
        s.length ≤ usizeMax → ps.offset + ps.length ≤ s.length →
        ps.subslice_of s = .ok ((s.drop ps.offset).take ps.length)) ∧
    (new 2 2).subslice_of ([0, 1, 2, 3, 4, 5, 6] : List Nat) = .ok [2, 3] ∧
    (new 2 2).subslice_of (([0, 1, 2, 3, 4, 5, 6] : List Nat).drop 1) =
      .ok [3, 4] ∧
    (new 2 2).substring_of [97, 98, 99, 100, 101, 102] = .ok [99, 100] ∧
    (new 2 2).substring_of (([97, 98, 99, 100, 101, 102] : List Nat).drop 1) =
      .ok [100, 101] := by
  refine ⟨?_, rfl, rfl, rfl, rfl⟩
  intro α s ps hmax hb
  have h1 : ps.offset + ps.length ≤ usizeMax := le_trans hb hmax
  simp [subslice_of, rustAddUsize, h1, hb, Nat.le_add_right,
    Nat.add_sub_cancel_left]

/-- Witness for `subslice_of_spec` on a concrete in-bounds projection. -/
theorem subslice_of_spec_witness :
    (new 1 3).subslice_of ([5, 6, 7, 8, 9] : List Nat) = .ok [6, 7, 8] :=
  subslice_of_spec.1 [5, 6, 7, 8, 9] (new 1 3) (by decide) (by decide)

/-- Claim C7: equality is structural, and `partial_cmp` is total (always
`some`), lexicographic (offset first, then length), `Equal` exactly on
equal instances, dual under swapping its arguments, and never both `Less`
and `Greater`. -/
theorem structural_eq_and_lex_order (x y : PositionalSlice) :
    (PositionalSlice.eq x y = true ↔
      x.offset = y.offset ∧ x.length = y.length) ∧
    (x.partialCmp y).isSome = true ∧
    (x.partialCmp y = some .lt ↔
      (x.offset < y.offset ∨ (x.offset = y.offset ∧ x.length < y.length))) ∧
    (x.partialCmp y = some .gt ↔
      (y.offset < x.offset ∨ (x.offset = y.offset ∧ y.length < x.length))) ∧
    (x.partialCmp y = some .eq ↔ PositionalSlice.eq x y = true) ∧
    (x.partialCmp y = some .lt ↔ y.partialCmp x = some .gt) ∧
    ¬(x.partialCmp y = some .lt ∧ x.partialCmp y = some .gt) := by
  unfold PositionalSlice.eq partialCmp
  split_ifs <;> simp_all <;> omega

/-- Witness for `structural_eq_and_lex_order`: the lexicographic `Less`
characterisation at `new(0,1)` and `new(1,1)`. -/
theorem structural_eq_and_lex_order_witness :
    (new 0 1).partialCmp (new 1 1) = some .lt ↔
      ((new 0 1).offset < (new 1 1).offset ∨
        ((new 0 1).offset = (new 1 1).offset ∧
          (new 0 1).length < (new 1 1).length)) :=
  (structural_eq_and_lex_order (new 0 1) (new 1 1)).2.2.1

/-- A UTF-8 character boundary of a byte string never lies past its end. -/
theorem isUtf8CharBoundary_le {s : List Nat} {i : Nat}
    (h : isUtf8CharBoundary s i = true) : i ≤ s.length := by
  by_cases h0 : i = 0
  · omega
  · rw [isUtf8CharBoundary, if_neg h0] at h
    cases hg : s[i]? with
    | none =>
      rw [hg] at h
      simp only [beq_iff_eq] at h
      omega
    | some b =>
      have hlt : i < s.length := by
        by_contra hge
        push_neg at hge
        rw [List.getElem?_eq_none hge] at hg
        cases hg
      omega

/-- Claim C5 (counterexample): the byte-bounds precondition
`offset + length <= text.length` is satisfied, yet `substring_of` traps:
on the two-byte string `"\u{e9}"` (bytes `[0xC3, 0xA9]`), the slice
`new(0, 1)` is in bounds but byte index `1` is not a character boundary,
so Rust `&str` indexing panics. -/
theorem substring_of_in_bounds_traps :
    (new 0 1).offset + (new 0 1).length ≤ ([0xC3, 0xA9] : List Nat).length ∧
    (new 0 1).substring_of [0xC3, 0xA9] = .error () :=
  ⟨by decide, rfl⟩

/-- Claim C5 (amended): for text whose length is representable,
`substring_of` returns the sub-view of bytes `[offset, offset+length)`
without trapping exactly when the byte bounds hold AND both `offset` and
`offset+length` are UTF-8 character boundaries of the text; it traps in
every other case. -/
theorem substring_of_ok_iff (s : List Nat) (ps : PositionalSlice)
    (hmax : s.length ≤ usizeMax) :
    ps.substring_of s = .ok ((s.drop ps.offset).take ps.length) ↔
      (ps.offset + ps.length ≤ s.length ∧
        isUtf8CharBoundary s ps.offset = true ∧
        isUtf8CharBoundary s (ps.offset + ps.length) = true) := by
  constructor
  · intro h
    unfold substring_of rustAddUsize at h
    by_cases hadd : ps.offset + ps.length ≤ usizeMax
    · rw [if_pos hadd] at h
      replace h : rustStrIndex s ps.offset (ps.offset + ps.length) =
          Except.ok (List.take ps.length (List.drop ps.offset s)) := h
      unfold rustStrIndex at h
      split_ifs at h with hc
      obtain ⟨-, h1, h2⟩ := hc
      exact ⟨isUtf8CharBoundary_le h2, h1, h2⟩
    · rw [if_neg hadd] at h
      cases h
  · rintro ⟨hb, h1, h2⟩
    have hadd : ps.offset + ps.length ≤ usizeMax := le_trans hb hmax
    simp [substring_of, rustAddUsize, rustStrIndex, hadd, h1, h2,
      Nat.le_add_right, Nat.add_sub_cancel_left]

/-- Witness for `substring_of_ok_iff` on ASCII text `"abcdef"` with
`new(2, 2)`. -/
theorem substring_of_ok_iff_witness :
    ((new 2 2).substring_of [97, 98, 99, 100, 101, 102] =
        .ok ((([97, 98, 99, 100, 101, 102] : List Nat).drop 2).take 2) ↔
      (2 + 2 ≤ 6 ∧
        isUtf8CharBoundary [97, 98, 99, 100, 101, 102] 2 = true ∧
        isUtf8CharBoundary [97, 98, 99, 100, 101, 102] (2 + 2) = true)) :=
  substring_of_ok_iff [97, 98, 99, 100, 101, 102] (new 2 2) (by decide)

/-- Shape of `offset_checked` for a negative delta above `isize::MIN`:
the negation does not panic and the source's case-1 test decides the
result. -/
theorem offset_checked_of_neg (s : PositionalSlice) (d : Int) (hd : d < 0)
    (hmin : isizeMin < d) :
    s.offset_checked d =
      if (-d).toNat > s.offset then .ok none
      else .ok (some (new (s.offset - (-d).toNat) s.length)) := by
  have hne : d ≠ 0 := by omega
  have hrel : isizeMax = -isizeMin - 1 := by decide
  have hmin0 : isizeMin < 0 := by decide
  have h1 : isizeMin ≤ -d := by omega
  have h2 : -d ≤ isizeMax := by omega
  simp [offset_checked, rustNegIsize, hne, hd, h1, h2]

/-- Shape of `offset_checked` for a positive delta: the source's case-2
test, then the (possibly panicking) sum `a + self.length`, then the
case-3 test. -/
theorem offset_checked_of_pos (s : PositionalSlice) (d : Int) (hd : 0 < d) :
    s.offset_checked d =
      if d.toNat > usizeMax - s.offset then .ok none
      else if usizeMax < d.toNat + s.length then .error ()
      else if d.toNat + s.length > usizeMax - s.offset then .ok none
      else .ok (some (new (s.offset + d.toNat) s.length)) := by
  have hne : d ≠ 0 := by omega
  have hnlt : ¬ d < 0 := by omega
  simp only [offset_checked, rustAddUsize, if_neg hne, if_neg hnlt]
  split_ifs with h1 h2 h3 h4 h5
  · rfl
  · omega
  · exact if_pos h4
  · exact if_neg h4
  · rfl
  · omega
  · omega

/-- Claim C3 (counterexample): the round-trip fails on the code as stated.
At `x = {offset: 1, length: usize::MAX}` and `d = -1`, `offset_checked(-1)`
is present, but shifting the result back by `-(-1) = 1` panics in a debug
build (the guard `a + self.length` overflows), instead of returning `x`. -/
theorem offset_checked_roundtrip_cx :
    offset_checked (new 1 usizeMax) (-1) = .ok (some (new 0 usizeMax)) ∧
    offset_checked (new 0 usizeMax) (-(-1)) = .error () :=
  ⟨rfl, rfl⟩

/-- Claim C3 (amended): the round-trip holds for every slice whose end,
`offset + length`, is representable (at most `usize::MAX`): for an isize
delta `d`, if `x.offset_checked(d)` is present with value `y`, then
`y.offset_checked(-d)` is present with value `x`. -/
theorem offset_checked_roundtrip (x : PositionalSlice) (d : Int)
    (y : PositionalSlice) (hx : x.offset + x.length ≤ usizeMax)
    (hd1 : isizeMin ≤ d) (hd2 : d ≤ isizeMax)
    (h : x.offset_checked d = .ok (some y)) :
    y.offset_checked (-d) = .ok (some x) := by
  obtain ⟨xo, xl⟩ := x
  change xo + xl ≤ usizeMax at hx
  have hrel : isizeMax = -isizeMin - 1 := by decide
  have hmin0 : isizeMin < 0 := by decide
  rcases lt_trichotomy d 0 with hd | hd | hd
  · -- `d < 0`: the magnitude was subtracted from the offset.
    have hmin : isizeMin < d := by
      rcases eq_or_lt_of_le hd1 with he | hlt
      · exfalso
        rw [← he] at h
        have hnz : ¬ (isizeMin = 0) := by decide
        have hlt0 : isizeMin < 0 := by decide
        have hnr : rustNegIsize isizeMin = .error () := by rfl
        unfold offset_checked at h
        rw [if_neg hnz, if_pos hlt0, hnr] at h
        exact Except.noConfusion h
      · exact hlt
    rw [offset_checked_of_neg _ d hd hmin] at h
    by_cases hle : (-d).toNat > xo
    · rw [if_pos hle] at h
      exact Option.noConfusion (Except.ok.inj h)
    · rw [if_neg hle] at h
      simp only [Except.ok.injEq, Option.some.injEq] at h
      have hpos : 0 < -d := by omega
      rw [offset_checked_of_pos y (-d) hpos]
      subst h
      simp only [new]
      have c1 : ¬ ((-d).toNat > usizeMax - (xo - (-d).toNat)) := by omega
      have c2 : ¬ (usizeMax < (-d).toNat + xl) := by omega
      have c3 : ¬ ((-d).toNat + xl > usizeMax - (xo - (-d).toNat)) := by
        omega
      rw [if_neg c1, if_neg c2, if_neg c3]
      have he : xo - (-d).toNat + (-d).toNat = xo := by omega
      rw [he]
  · -- `d = 0`: the early return gives the value back unchanged.
    subst hd
    have h0 : (PositionalSlice.mk xo xl).offset_checked 0 =
        .ok (some (PositionalSlice.mk xo xl)) := rfl
    rw [h0] at h
    simp only [Except.ok.injEq, Option.some.injEq] at h
    subst h
    rw [neg_zero]
    exact h0
  · -- `d > 0`: the delta was added to the offset.
    rw [offset_checked_of_pos _ d hd] at h
    split_ifs at h with c1 c2 c3
    · exact Option.noConfusion (Except.ok.inj h)
    · exact Option.noConfusion (Except.ok.inj h)
    · simp only [Except.ok.injEq, Option.some.injEq] at h
      have hneg : -d < 0 := by omega
      have hnegmin : isizeMin < -d := by omega
      rw [offset_checked_of_neg y (-d) hneg hnegmin, neg_neg]
      subst h
      simp only [new]
      have hc : ¬ (d.toNat > xo + d.toNat) := by omega
      rw [if_neg hc]
      have he : xo + d.toNat - d.toNat = xo := by omega
      rw [he]

/-- Witness for `offset_checked_roundtrip`: shifting `new(1,1)` by `1`
gives `new(2,1)`, and shifting that by `-1` gives `new(1,1)` back. -/
theorem offset_checked_roundtrip_witness :
    offset_checked (new 2 1) (-1) = .ok (some (new 1 1)) :=
  offset_checked_roundtrip (new 1 1) 1 (new 2 1) (by decide) (by decide)
    (by decide) rfl

end FastParse
